import Mathlib

/-!
Verification of the Bismut VS Code extension's symbol cache and query
engine (`symbolCache.ts`, `definition.ts`, `completion.ts`).

The TypeScript code is shallowly embedded: JavaScript `Map`s (which keep
insertion order, replace in place on `set` of an existing key, and append
new keys at the end) are modelled as association lists `List (String × α)`
with `mapSet` / `mapGet` / `mapDelete`; the mutable `SymbolCache` class
becomes a state structure with explicit state-passing operations; the
asynchronous analyzer invocation becomes an explicit `Option AnalysisResult`
outcome parameter, and the in-flight bookkeeping (`analyzing` set, added on
entry and removed in the `finally` block) is split into `beginAnalyze` /
`completeAnalyze` so that interleavings of two requests can be stated.
-/

/-- One symbol from the analyzer JSON (`BismutSymbol` in `analyzer.ts`). -/
structure BismutSymbol where
  name : String
  kind : String
  file : String
  line : Int
  col : Int
  doc : String
  detail : String
  parent : String
deriving DecidableEq, Repr

/-- One diagnostic from the analyzer JSON (`BismutDiagnostic` in `analyzer.ts`). -/
structure BismutDiagnostic where
  severity : String
  file : String
  line : Int
  col : Int
  span : Int
  message : String
deriving DecidableEq, Repr

/-- The per-file snapshot (`AnalysisResult` in `analyzer.ts`). -/
structure AnalysisResult where
  success : Bool
  file : String
  error_count : Int
  warning_count : Int
  diagnostics : List BismutDiagnostic
  symbols : List BismutSymbol
deriving DecidableEq, Repr

/-- A `vscode.Range` (zero-based positions). -/
structure VsRange where
  startLine : Int
  startCol : Int
  endLine : Int
  endCol : Int
deriving DecidableEq, Repr

/-- A `vscode.Diagnostic` as constructed by `toVsDiagnostic`; severity uses the
`vscode.DiagnosticSeverity` numeric values (0 = Error, 1 = Warning, 2 = Information). -/
structure VsDiagnostic where
  range : VsRange
  message : String
  severity : Nat
  source : String
deriving DecidableEq, Repr

/-- A `vscode.CompletionItem` as far as `symbolToCompletionItem` determines it:
label, numeric `vscode.CompletionItemKind`, and detail string. -/
structure CompletionItem where
  label : String
  kind : Nat
  detail : String
deriving DecidableEq, Repr

-- ─── JS Map embedding ────────────────────────────────────────────────

/-- `Map.get(k)` — value of the first (on maps built by `mapSet`, unique)
entry with key `k`. -/
def mapGet (m : List (String × α)) (k : String) : Option α :=
  (m.find? (fun p => p.1 == k)).map (fun p => p.2)

/-- `Map.set(k, v)` — replace in place when the key is present, append
otherwise (JS `Map` insertion-order semantics). -/
def mapSet (m : List (String × α)) (k : String) (v : α) : List (String × α) :=
  match m with
  | [] => [(k, v)]
  | p :: rest => if p.1 == k then (k, v) :: rest else p :: mapSet rest k v

/-- `Map.delete(k)`. -/
def mapDelete (m : List (String × α)) (k : String) : List (String × α) :=
  m.filter (fun p => p.1 != k)

/-- Keys of an association list are pairwise distinct (true of every map
built from `[]` by `mapSet`/`mapDelete`, as all maps in the cache are). -/
def NodupKeys (m : List (String × α)) : Prop :=
  (m.map Prod.fst).Nodup

@[simp]
theorem mapGet_nil (k : String) : mapGet ([] : List (String × α)) k = none := rfl

theorem mapGet_cons (p : String × α) (rest : List (String × α)) (k : String) :
    mapGet (p :: rest) k = if p.1 = k then some p.2 else mapGet rest k := by
  by_cases h : p.1 = k <;> simp [mapGet, List.find?_cons, h]

theorem mapDelete_cons (p : String × α) (rest : List (String × α)) (k : String) :
    mapDelete (p :: rest) k =
      if p.1 = k then mapDelete rest k else p :: mapDelete rest k := by
  by_cases h : p.1 = k <;> simp [mapDelete, List.filter_cons, h]

theorem mapGet_mapSet_self (m : List (String × α)) (k : String) (v : α) :
    mapGet (mapSet m k v) k = some v := by
  induction m with
  | nil => simp [mapSet, mapGet_cons]
  | cons p rest ih =>
    by_cases h : p.1 = k
    · simp [mapSet, h, mapGet_cons]
    · simp [mapSet, h, mapGet_cons, ih]

theorem mapGet_mapSet_ne (m : List (String × α)) (k k' : String) (v : α)
    (h : k' ≠ k) : mapGet (mapSet m k v) k' = mapGet m k' := by
  induction m with
  | nil => simp [mapSet, mapGet_cons, Ne.symm h]
  | cons p rest ih =>
    by_cases hp : p.1 = k
    · have hp' : p.1 ≠ k' := by rw [hp]; exact Ne.symm h
      simp [mapSet, hp, mapGet_cons, Ne.symm h, hp']
    · by_cases hp' : p.1 = k'
      · simp [mapSet, hp, mapGet_cons, hp', h]
      · simp [mapSet, hp, mapGet_cons, hp', h, ih]

theorem mapGet_mapDelete_self (m : List (String × α)) (k : String) :
    mapGet (mapDelete m k) k = none := by
  induction m with
  | nil => simp [mapDelete]
  | cons p rest ih =>
    by_cases hp : p.1 = k
    · simp [mapDelete_cons, hp, ih]
    · simp [mapDelete_cons, hp, mapGet_cons, ih]

theorem mapGet_mapDelete_ne (m : List (String × α)) (k k' : String)
    (h : k' ≠ k) : mapGet (mapDelete m k) k' = mapGet m k' := by
  induction m with
  | nil => simp [mapDelete]
  | cons p rest ih =>
    by_cases hp : p.1 = k
    · have hp' : p.1 ≠ k' := by rw [hp]; exact Ne.symm h
      simp [mapDelete_cons, hp, mapGet_cons, hp', Ne.symm h, ih]
    · by_cases hp' : p.1 = k'
      · simp [mapDelete_cons, hp, mapGet_cons, hp', h]
      · simp [mapDelete_cons, hp, mapGet_cons, hp', h, ih]

theorem mem_mapSet (m : List (String × α)) (k : String) (v : α)
    (p : String × α) (hp : p ∈ mapSet m k v) : p = (k, v) ∨ p ∈ m := by
  induction m with
  | nil => simpa [mapSet] using hp
  | cons q rest ih =>
    by_cases hq : q.1 = k
    · simp only [mapSet, beq_iff_eq, hq, if_true, List.mem_cons] at hp
      rcases hp with h | h
      · exact Or.inl h
      · exact Or.inr (List.mem_cons_of_mem _ h)
    · simp only [mapSet, beq_iff_eq, hq, if_false, List.mem_cons] at hp
      rcases hp with h | h
      · exact Or.inr (by simp [h])
      · rcases ih h with h' | h'
        · exact Or.inl h'
        · exact Or.inr (List.mem_cons_of_mem _ h')

theorem mapGet_mem (m : List (String × α)) (k : String) (v : α)
    (h : mapGet m k = some v) : (k, v) ∈ m := by
  unfold mapGet at h
  cases hf : m.find? (fun p => p.1 == k) with
  | none => simp [hf] at h
  | some q =>
    have hq : q ∈ m := List.mem_of_find?_eq_some hf
    have hk : q.1 = k := by
      have := List.find?_some hf
      simpa using this
    simp only [hf, Option.map_some] at h
    have : q = (k, v) := by
      cases q
      simp_all
    rwa [this] at hq

theorem keys_mapSet_subset (m : List (String × α)) (k : String) (v : α)
    (x : String) (hx : x ∈ (mapSet m k v).map Prod.fst) :
    x = k ∨ x ∈ m.map Prod.fst := by
  rcases List.mem_map.1 hx with ⟨p, hp, hpx⟩
  rcases mem_mapSet m k v p hp with h | h
  · left; rw [← hpx, h]
  · right; exact List.mem_map.2 ⟨p, h, hpx⟩

theorem nodupKeys_mapSet (m : List (String × α)) (k : String) (v : α)
    (h : NodupKeys m) : NodupKeys (mapSet m k v) := by
  induction m with
  | nil => simp [NodupKeys, mapSet]
  | cons p rest ih =>
    simp only [NodupKeys, List.map_cons, List.nodup_cons] at h
    by_cases hp : p.1 = k
    · simp only [NodupKeys, mapSet, beq_iff_eq, hp, if_true, List.map_cons,
        List.nodup_cons]
      exact ⟨by rw [← hp]; exact h.1, h.2⟩
    · have ih' := ih h.2
      simp only [NodupKeys, mapSet, beq_iff_eq, hp, if_false, List.map_cons,
        List.nodup_cons]
      refine ⟨fun hmem => ?_, ih'⟩
      rcases keys_mapSet_subset rest k v p.1 hmem with h' | h'
      · exact hp h'
      · exact h.1 h'

theorem nodupKeys_mapDelete (m : List (String × α)) (k : String)
    (h : NodupKeys m) : NodupKeys (mapDelete m k) := by
  unfold NodupKeys mapDelete
  exact List.Nodup.sublist ((List.filter_sublist m).map Prod.fst) h

theorem mapSet_mapSet (m : List (String × α)) (k : String) (v w : α) :
    mapSet (mapSet m k v) k w = mapSet m k w := by
  induction m with
  | nil => simp [mapSet]
  | cons p rest ih =>
    by_cases hp : p.1 = k
    · simp [mapSet, hp]
    · simp [mapSet, hp, ih]

-- ─── SymbolCache state and operations (symbolCache.ts) ───────────────

/-- Whether a name contains a dot (`name.includes('.')`), computed on the
character list so that it reduces by structural recursion. -/
def nameContainsDot (name : String) : Bool :=
  name.toList.contains '.'

/-- The characters after the last `'.'` of the list (the whole list when
there is no dot): the value of `split('.').pop()`. -/
def lastSegment (cs : List Char) : List Char :=
  cs.foldl (fun acc c => if c = '.' then [] else acc ++ [c]) []

/-- The simple name: the substring after the last dot
(`sym.name.includes('.') ? sym.name.split('.').pop()! : sym.name`); when the
name has no dot, the segment after the last dot is the name itself, so the
conditional collapses. -/
def simpleNameOf (name : String) : String :=
  (lastSegment name.toList).asString

/-- State of the `SymbolCache` class: per-file results, per-file name
indices, the global index, the published diagnostics keyed by file, and
the set of file paths with an analysis in flight. -/
structure SymbolCache where
  cache : List (String × AnalysisResult)
  nameIndex : List (String × List (String × List BismutSymbol))
  globalSymbols : List (String × List BismutSymbol)
  diagnostics : List (String × List VsDiagnostic)
  analyzing : List String
deriving Repr

/-- The empty cache (constructor state). -/
def SymbolCache.empty : SymbolCache :=
  { cache := [], nameIndex := [], globalSymbols := [], diagnostics := [], analyzing := [] }

/-- The per-file index built by `buildIndex`: each symbol is appended under
its full name, and additionally under its simple name when the name is dotted. -/
def addSymbol (index : List (String × List BismutSymbol)) (sym : BismutSymbol) :
    List (String × List BismutSymbol) :=
  let index1 := mapSet index sym.name ((mapGet index sym.name).getD [] ++ [sym])
  if nameContainsDot sym.name then
    let simple := simpleNameOf sym.name
    mapSet index1 simple ((mapGet index1 simple).getD [] ++ [sym])
  else index1

def buildIndexMap (syms : List BismutSymbol) : List (String × List BismutSymbol) :=
  syms.foldl addSymbol []

/-- The inner loop body of `rebuildGlobalIndex`: append one name's symbol
list onto the global map's entry for that name. -/
def indexInto (g : List (String × List BismutSymbol)) (e : String × List BismutSymbol) :
    List (String × List BismutSymbol) :=
  mapSet g e.1 ((mapGet g e.1).getD [] ++ e.2)

/-- The outer loop body of `rebuildGlobalIndex`: fold one file's index into
the global map. -/
def indexFileInto (g : List (String × List BismutSymbol))
    (fileEntry : String × List (String × List BismutSymbol)) :
    List (String × List BismutSymbol) :=
  fileEntry.2.foldl indexInto g

/-- `rebuildGlobalIndex`: clear the global map, then append every per-file
index entry into it, file by file, name by name. -/
def rebuildGlobalIndex (nameIndex : List (String × List (String × List BismutSymbol))) :
    List (String × List BismutSymbol) :=
  nameIndex.foldl indexFileInto []

/-- `toVsDiagnostic`: 1-based to 0-based with clamping, minimum span 1. -/
def toVsDiagnostic (d : BismutDiagnostic) : VsDiagnostic :=
  let line := max 0 (d.line - 1)
  let col := max 0 (d.col - 1)
  let span := max 1 d.span
  { range := { startLine := line, startCol := col, endLine := line, endCol := col + span }
    message := d.message
    severity :=
      if d.severity == "error" then 0
      else if d.severity == "warning" then 1
      else 2
    source := "bismut" }

/-- `publishDiagnostics`: group diagnostics by their own file (falling back to
the analyzed file when empty), delete the analyzed file's prior entry, then
set each group's converted diagnostics. -/
def publishDiagnostics (dc : List (String × List VsDiagnostic)) (result : AnalysisResult) :
    List (String × List VsDiagnostic) :=
  let byFile := result.diagnostics.foldl
    (fun m d =>
      let f := if d.file == "" then result.file else d.file
      mapSet m f ((mapGet m f).getD [] ++ [d]))
    []
  let dc1 := mapDelete dc result.file
  byFile.foldl (fun dc e => mapSet dc e.1 (e.2.map toVsDiagnostic)) dc1

/-- The successful-analysis update of `analyzeFile`: store the result, rebuild
the file's name index and the global index (`buildIndex`), publish diagnostics. -/
def SymbolCache.ingest (st : SymbolCache) (filePath : String) (result : AnalysisResult) :
    SymbolCache :=
  let nameIndex := mapSet st.nameIndex filePath (buildIndexMap result.symbols)
  { st with
    cache := mapSet st.cache filePath result
    nameIndex := nameIndex
    globalSymbols := rebuildGlobalIndex nameIndex
    diagnostics := publishDiagnostics st.diagnostics result }

/-- `clearFile`: drop the file's result and local index, rebuild the global index. -/
def SymbolCache.clearFile (st : SymbolCache) (filePath : String) : SymbolCache :=
  let nameIndex := mapDelete st.nameIndex filePath
  { st with
    cache := mapDelete st.cache filePath
    nameIndex := nameIndex
    globalSymbols := rebuildGlobalIndex nameIndex }

/-- The entry check of `analyzeFile` (lines 34–38): a request for a path
already being analyzed is answered from the cache with no invocation
(`false`); otherwise the path is marked in flight and the external
invocation starts (`true`, answer pending). -/
def SymbolCache.beginAnalyze (st : SymbolCache) (filePath : String) :
    SymbolCache × Bool × Option (Option AnalysisResult) :=
  if st.analyzing.contains filePath then
    (st, false, some (mapGet st.cache filePath))
  else
    ({ st with analyzing := filePath :: st.analyzing }, true, none)

/-- The completion of `analyzeFile` (lines 40–49): ingest on a non-null
result, do nothing on null, and always remove the path from the in-flight
set (the `finally` block). -/
def SymbolCache.completeAnalyze (st : SymbolCache) (filePath : String)
    (res : Option AnalysisResult) : SymbolCache :=
  let st1 := match res with
    | some r => st.ingest filePath r
    | none => st
  { st1 with analyzing := st1.analyzing.filter (fun x => x != filePath) }

/-- `analyzeFile` run to completion with analyzer outcome `res`; returns the
new state, the value resolved to the caller, and how many external
invocations occurred (0 or 1). -/
def SymbolCache.analyzeFile (st : SymbolCache) (filePath : String)
    (res : Option AnalysisResult) : SymbolCache × Option AnalysisResult × Nat :=
  match st.beginAnalyze filePath with
  | (st1, false, some ans) => (st1, ans, 0)
  | (st1, _, _) => (st1.completeAnalyze filePath res, res, 1)

-- ─── Query operations ────────────────────────────────────────────────

/-- `findSymbolsByName`: exact lookup in the global index, empty when absent. -/
def SymbolCache.findSymbolsByName (st : SymbolCache) (name : String) : List BismutSymbol :=
  (mapGet st.globalSymbols name).getD []

/-- The definition kinds preferred by `findDefinition`. -/
def defKinds : List String :=
  ["function", "class", "struct", "interface", "enum", "method", "field", "variable", "constant"]

/-- The `for` loop of `findDefinition`: first candidate of a definition kind. -/
def findDefLoop : List BismutSymbol → Option BismutSymbol
  | [] => none
  | s :: rest => if defKinds.contains s.kind then some s else findDefLoop rest

/-- `findDefinition`: null on no candidates, else the first definition-kind
candidate, else the first candidate. -/
def SymbolCache.findDefinition (st : SymbolCache) (name : String) : Option BismutSymbol :=
  let candidates := st.findSymbolsByName name
  if candidates.isEmpty then none
  else
    match findDefLoop candidates with
    | some s => some s
    | none => candidates.head?

/-- `findMembers`: all symbols across all cached results whose parent is the
given type name, in cache-then-declaration order. -/
def SymbolCache.findMembers (st : SymbolCache) (typeName : String) : List BismutSymbol :=
  st.cache.foldl
    (fun results e => results ++ e.2.symbols.filter (fun s => s.parent == typeName))
    []

/-- The kind guard of `findVariableType`
(`kind === 'variable' || 'constant' || 'parameter' || 'field'`). -/
def isVarKindSym (s : BismutSymbol) : Bool :=
  s.kind == "variable" || s.kind == "constant" || s.kind == "parameter" || s.kind == "field"

/-- The `for` loop of `findVariableType`: first variable/constant/parameter/field
whose simple name equals the query and whose detail is non-empty ("truthy"). -/
def findVarTypeLoop (varName : String) : List BismutSymbol → Option String
  | [] => none
  | s :: rest =>
    if isVarKindSym s then
      if simpleNameOf s.name == varName && s.detail != "" then some s.detail
      else findVarTypeLoop varName rest
    else findVarTypeLoop varName rest

/-- `findVariableType`: scan the file's own symbols with `findVarTypeLoop`. -/
def SymbolCache.findVariableType (st : SymbolCache) (filePath varName : String) :
    Option String :=
  match mapGet st.cache filePath with
  | none => none
  | some result => findVarTypeLoop varName result.symbols

-- ─── Global index characterization ───────────────────────────────────

/-- A per-file index's contribution for one name. -/
def fileContrib (idx : List (String × List BismutSymbol)) (name : String) :
    List BismutSymbol :=
  (mapGet idx name).getD []

/-- The union, in file order, of every per-file contribution for a name. -/
def unionContrib (nameIndex : List (String × List (String × List BismutSymbol)))
    (name : String) : List BismutSymbol :=
  (nameIndex.map (fun e => fileContrib e.2 name)).flatten

theorem mapGet_eq_none_of_not_mem_keys (m : List (String × α)) (k : String)
    (h : k ∉ m.map Prod.fst) : mapGet m k = none := by
  induction m with
  | nil => rfl
  | cons p rest ih =>
    simp only [List.map_cons, List.mem_cons, not_or] at h
    rw [mapGet_cons, if_neg (fun hp => h.1 hp.symm)]
    exact ih h.2

theorem indexFileInto_contrib (name : String) (idx : List (String × List BismutSymbol))
    (g : List (String × List BismutSymbol)) (hnd : NodupKeys idx) :
    fileContrib (idx.foldl indexInto g) name = fileContrib g name ++ fileContrib idx name := by
  induction idx generalizing g with
  | nil => simp [fileContrib]
  | cons e rest ih =>
    simp only [NodupKeys, List.map_cons, List.nodup_cons] at hnd
    rw [List.foldl_cons, ih _ hnd.2]
    by_cases hn : e.1 = name
    · subst hn
      have hrest : mapGet rest e.1 = none :=
        mapGet_eq_none_of_not_mem_keys _ _ hnd.1
      simp [fileContrib, indexInto, mapGet_mapSet_self, mapGet_cons, hrest]
    · simp [fileContrib, indexInto, mapGet_mapSet_ne _ _ _ _ (fun hh => hn hh.symm),
        mapGet_cons, hn]

theorem rebuildFold_contrib (name : String)
    (ni : List (String × List (String × List BismutSymbol)))
    (g : List (String × List BismutSymbol))
    (h : ∀ e ∈ ni, NodupKeys e.2) :
    fileContrib (ni.foldl indexFileInto g) name =
      fileContrib g name ++ unionContrib ni name := by
  induction ni generalizing g with
  | nil => simp [unionContrib]
  | cons e rest ih =>
    rw [List.foldl_cons]
    rw [ih _ (fun e' he' => h e' (List.mem_cons_of_mem _ he'))]
    rw [indexFileInto, indexFileInto_contrib name _ _ (h e (List.mem_cons_self _ _))]
    simp [unionContrib]

/-- The rebuilt global index maps every name to exactly the concatenation of
the per-file contributions, in file order. -/
theorem rebuildGlobalIndex_contrib (name : String)
    (ni : List (String × List (String × List BismutSymbol)))
    (h : ∀ e ∈ ni, NodupKeys e.2) :
    fileContrib (rebuildGlobalIndex ni) name = unionContrib ni name := by
  rw [rebuildGlobalIndex, rebuildFold_contrib name ni [] h]
  simp [fileContrib]

-- ─── buildIndexMap structure lemmas ──────────────────────────────────

theorem nodupKeys_addSymbol (index : List (String × List BismutSymbol))
    (sym : BismutSymbol) (h : NodupKeys index) : NodupKeys (addSymbol index sym) := by
  unfold addSymbol
  by_cases hc : nameContainsDot sym.name
  · simp only [hc, if_true]
    exact nodupKeys_mapSet _ _ _ (nodupKeys_mapSet _ _ _ h)
  · simp only [hc, if_false]
    exact nodupKeys_mapSet _ _ _ h

theorem nodupKeys_buildIndexMap (syms : List BismutSymbol) :
    NodupKeys (buildIndexMap syms) := by
  have main : ∀ (l : List BismutSymbol) (acc : List (String × List BismutSymbol)),
      NodupKeys acc → NodupKeys (l.foldl addSymbol acc) := by
    intro l
    induction l with
    | nil => intro acc h; exact h
    | cons s rest ih =>
      intro acc h
      exact ih _ (nodupKeys_addSymbol _ _ h)
  exact main syms [] (by simp [NodupKeys])

theorem mem_mapSetAppend (index : List (String × List BismutSymbol))
    (nm : String) (add : List BismutSymbol) (q : String × List BismutSymbol)
    (hq : q ∈ mapSet index nm ((mapGet index nm).getD [] ++ add))
    (s : BismutSymbol) (hs : s ∈ q.2) :
    (∃ q' ∈ index, s ∈ q'.2) ∨ s ∈ add := by
  rcases mem_mapSet _ _ _ _ hq with h | h
  · subst h
    simp only at hs
    rcases List.mem_append.1 hs with h' | h'
    · cases hg : mapGet index nm with
      | none => rw [hg] at h'; simp at h'
      | some v =>
        rw [hg] at h'
        exact Or.inl ⟨(nm, v), mapGet_mem _ _ _ hg, by simpa using h'⟩
    · exact Or.inr h'
  · exact Or.inl ⟨q, h, hs⟩

theorem mem_addSymbol (index : List (String × List BismutSymbol))
    (sym : BismutSymbol) (q : String × List BismutSymbol)
    (hq : q ∈ addSymbol index sym) (s : BismutSymbol) (hs : s ∈ q.2) :
    (∃ q' ∈ index, s ∈ q'.2) ∨ s = sym := by
  unfold addSymbol at hq
  by_cases hc : nameContainsDot sym.name
  · simp only [hc, if_true] at hq
    rcases mem_mapSetAppend _ _ _ _ hq _ hs with h | h
    · rcases h with ⟨q', hq', hs'⟩
      rcases mem_mapSetAppend _ _ _ _ hq' _ hs' with h' | h'
      · exact Or.inl h'
      · exact Or.inr (by simpa using h')
    · exact Or.inr (by simpa using h)
  · simp only [hc, if_false] at hq
    rcases mem_mapSetAppend _ _ _ _ hq _ hs with h | h
    · exact Or.inl h
    · exact Or.inr (by simpa using h)

/-- Every symbol stored anywhere in `buildIndexMap syms` is one of `syms`. -/
theorem mem_buildIndexMap (syms : List BismutSymbol)
    (q : String × List BismutSymbol) (hq : q ∈ buildIndexMap syms)
    (s : BismutSymbol) (hs : s ∈ q.2) : s ∈ syms := by
  have main : ∀ (l : List BismutSymbol) (acc : List (String × List BismutSymbol)),
      (∀ q' ∈ acc, ∀ s' ∈ q'.2, s' ∈ syms) → (∀ s' ∈ l, s' ∈ syms) →
      ∀ q' ∈ l.foldl addSymbol acc, ∀ s' ∈ q'.2, s' ∈ syms := by
    intro l
    induction l with
    | nil => intro acc hacc _ q' hq' s' hs'; exact hacc q' hq' s' hs'
    | cons t rest ih =>
      intro acc hacc hl q' hq' s' hs'
      refine ih (addSymbol acc t) ?_ (fun x hx => hl x (List.mem_cons_of_mem _ hx)) q' hq' s' hs'
      intro q'' hq'' s'' hs''
      rcases mem_addSymbol _ _ _ hq'' _ hs'' with h | h
      · rcases h with ⟨q₃, hq₃, hs₃⟩
        exact hacc q₃ hq₃ s'' hs₃
      · rw [h]
        exact hl t (List.mem_cons_self _ _)
  exact main syms [] (by simp) (fun x hx => hx) q hq s hs

-- ─── Providers built on the cache (definition.ts, completion.ts) ─────

/-- The dotted-access branch of `BismutDefinitionProvider.provideDefinition`
together with its final unqualified fallback: try the declared type of the
receiver, then the receiver itself as a type/module name, then the bare word. -/
def resolveDotted (st : SymbolCache) (filePath parentName word : String) :
    Option BismutSymbol :=
  let sym1 := match st.findVariableType filePath parentName with
    | some parentType => st.findDefinition (parentType ++ "." ++ word)
    | none => none
  let sym2 := match sym1 with
    | some s => some s
    | none => st.findDefinition (parentName ++ "." ++ word)
  match sym2 with
  | some s => some s
  | none => st.findDefinition word

/-- `completionKindMap` of completion.ts, with the numeric
`vscode.CompletionItemKind` values; missing kinds fall back to Variable (5). -/
def completionKindPairs : List (String × Nat) :=
  [("function", 2), ("class", 6), ("struct", 21), ("interface", 7), ("enum", 12),
   ("method", 1), ("method_sig", 1), ("field", 4), ("variable", 5), ("constant", 20),
   ("parameter", 5), ("enum_variant", 19)]

def completionKindMap (kind : String) : Nat :=
  (mapGet completionKindPairs kind).getD 5

/-- `symbolToCompletionItem`, restricted to the pure item fields. -/
def symbolToCompletionItem (sym : BismutSymbol) : CompletionItem :=
  { label := simpleNameOf sym.name
    kind := completionKindMap sym.kind
    detail := sym.detail }

/-- `BismutCompletionProvider.provideDotCompletion` after the receiver
identifier has been extracted from the line text. -/
def provideDotCompletion (st : SymbolCache) (filePath varName : String) :
    List CompletionItem :=
  let typeName := match st.findVariableType filePath varName with
    | some t => t
    | none => varName
  let members := st.findMembers typeName
  if members.isEmpty then
    let enumMembers := st.findMembers varName
    if enumMembers.isEmpty then []
    else enumMembers.map symbolToCompletionItem
  else
    (members.filter (fun m => m.kind != "parameter")).map symbolToCompletionItem

-- ─── Loop / find? bridges ────────────────────────────────────────────

theorem findDefLoop_eq_find? (l : List BismutSymbol) :
    findDefLoop l = l.find? (fun s => defKinds.contains s.kind) := by
  induction l with
  | nil => rfl
  | cons s rest ih =>
    by_cases h : s.kind ∈ defKinds
    · simp [findDefLoop, List.find?_cons, h]
    · simp [findDefLoop, List.find?_cons, h, ih]

theorem findVarTypeLoop_eq_find? (varName : String) (l : List BismutSymbol) :
    findVarTypeLoop varName l =
      (l.find? (fun s =>
        isVarKindSym s && (simpleNameOf s.name == varName && s.detail != ""))).map
        (fun s => s.detail) := by
  induction l with
  | nil => rfl
  | cons s rest ih =>
    cases h1 : isVarKindSym s <;>
      cases h2 : (simpleNameOf s.name == varName && s.detail != "") <;>
        simp [findVarTypeLoop, List.find?_cons, h1, h2, ih]

-- ─── Concrete example data ───────────────────────────────────────────

/-- A blank symbol, filled per example. -/
def blankSym : BismutSymbol :=
  { name := "", kind := "", file := "", line := 1, col := 1, doc := "", detail := "", parent := "" }

/-- `{name:"x", kind:"parameter"}` from the spec's definition-priority example. -/
def xParamSym : BismutSymbol :=
  { blankSym with name := "x", kind := "parameter", file := "a.mut", line := 1, col := 5 }

/-- `{name:"x", kind:"variable"}` from the spec's definition-priority example. -/
def xVarSym : BismutSymbol :=
  { blankSym with name := "x", kind := "variable", file := "a.mut", line := 2, col := 3 }

def exResultC5 : AnalysisResult :=
  { success := true, file := "a.mut", error_count := 0, warning_count := 0,
    diagnostics := [], symbols := [xParamSym, xVarSym] }

def exStC5 : SymbolCache := SymbolCache.empty.ingest "a.mut" exResultC5

/-- `variable{name:"p", detail:"Point"}` from the spec's dotted-resolution example. -/
def pVarSym : BismutSymbol :=
  { blankSym with
    name := "p"
    kind := "variable"
    file := "f.mut"
    line := 3
    col := 1
    detail := "Point" }

/-- `{name:"Point.x", parent:"Point", kind:"field"}` from the same example. -/
def pointXSym : BismutSymbol :=
  { blankSym with
    name := "Point.x"
    kind := "field"
    file := "f.mut"
    line := 1
    col := 2
    detail := "i32"
    parent := "Point" }

def exResultC6 : AnalysisResult :=
  { success := true, file := "f.mut", error_count := 0, warning_count := 0,
    diagnostics := [], symbols := [pVarSym, pointXSym] }

def exStC6 : SymbolCache := SymbolCache.empty.ingest "f.mut" exResultC6

/-- Two same-named variables with different details: first textual match wins. -/
def xFirstSym : BismutSymbol :=
  { blankSym with
    name := "x"
    kind := "variable"
    file := "s.mut"
    line := 1
    col := 1
    detail := "i32" }

def xSecondSym : BismutSymbol :=
  { blankSym with
    name := "x"
    kind := "variable"
    file := "s.mut"
    line := 9
    col := 1
    detail := "f64" }

def exResultC9 : AnalysisResult :=
  { success := true, file := "s.mut", error_count := 0, warning_count := 0,
    diagnostics := [], symbols := [xFirstSym, xSecondSym] }

def exStC9 : SymbolCache := SymbolCache.empty.ingest "s.mut" exResultC9

/-- A type `G` whose only member is a parameter: dot completion must be empty. -/
def gParamSym : BismutSymbol :=
  { blankSym with
    name := "G.a"
    kind := "parameter"
    file := "g.mut"
    line := 1
    col := 7
    parent := "G" }

def exResultC10 : AnalysisResult :=
  { success := true, file := "g.mut", error_count := 0, warning_count := 0,
    diagnostics := [], symbols := [gParamSym] }

def exStC10 : SymbolCache := SymbolCache.empty.ingest "g.mut" exResultC10

/-- The spec's diagnostic-conversion example `{line:5, col:3, span:4}`. -/
def exDiagC8 : BismutDiagnostic :=
  { severity := "error", file := "d.mut", line := 5, col := 3, span := 4,
    message := "undefined symbol" }

-- ─── Claim theorems ──────────────────────────────────────────────────

/-- C8: diagnostic conversion maps 1-based line/column to 0-based by
subtracting one, clamps negative results to zero, and highlights a span of
max(1, span) characters on the same line; the diagnostic {line:5, col:3,
span:4} converts to the zero-based range (4,2)–(4,6), covering 4 characters. -/
theorem C8_diagnostic_conversion (d : BismutDiagnostic) :
    (1 ≤ d.line → (toVsDiagnostic d).range.startLine = d.line - 1) ∧
    (d.line < 1 → (toVsDiagnostic d).range.startLine = 0) ∧
    (1 ≤ d.col → (toVsDiagnostic d).range.startCol = d.col - 1) ∧
    (d.col < 1 → (toVsDiagnostic d).range.startCol = 0) ∧
    (toVsDiagnostic d).range.endLine = (toVsDiagnostic d).range.startLine ∧
    (toVsDiagnostic d).range.endCol = (toVsDiagnostic d).range.startCol + max 1 d.span ∧
    (toVsDiagnostic exDiagC8).range =
      { startLine := 4, startCol := 2, endLine := 4, endCol := 6 } := by
  refine ⟨?_, ?_, ?_, ?_, ?_, ?_, ?_⟩
  · intro h; simp only [toVsDiagnostic]; omega
  · intro h; simp only [toVsDiagnostic]; omega
  · intro h; simp only [toVsDiagnostic]; omega
  · intro h; simp only [toVsDiagnostic]; omega
  · rfl
  · rfl
  · rfl

/-- C8 witness: the hypotheses hold at the spec's concrete diagnostic. -/
theorem C8_diagnostic_conversion_witness :
    (1 : Int) ≤ exDiagC8.line ∧
    (toVsDiagnostic exDiagC8).range.startLine = exDiagC8.line - 1 :=
  ⟨by decide, (C8_diagnostic_conversion exDiagC8).1 (by decide)⟩

/-- C5: findDefinition returns the first candidate (in discovery order) of a
definition kind, falls back to the first candidate when none has a definition
kind, returns none when the name has no candidates; for candidates
[parameter x, variable x] it returns the variable entry. -/
theorem C5_lookupDefinition :
    (∀ (st : SymbolCache) (name : String),
      st.findSymbolsByName name = [] → st.findDefinition name = none) ∧
    (∀ (st : SymbolCache) (name : String) (s : BismutSymbol),
      (st.findSymbolsByName name).find? (fun s => defKinds.contains s.kind) = some s →
      st.findDefinition name = some s) ∧
    (∀ (st : SymbolCache) (name : String),
      (st.findSymbolsByName name).find? (fun s => defKinds.contains s.kind) = none →
      st.findDefinition name = (st.findSymbolsByName name).head?) ∧
    exStC5.findDefinition "x" = some xVarSym := by
  refine ⟨?_, ?_, ?_, by decide⟩
  · intro st name h
    simp [SymbolCache.findDefinition, h]
  · intro st name s h
    have hne : (st.findSymbolsByName name).isEmpty = false := by
      cases hl : st.findSymbolsByName name with
      | nil => rw [hl] at h; simp at h
      | cons a l => simp
    simp only [SymbolCache.findDefinition, hne, Bool.false_eq_true, if_false,
      findDefLoop_eq_find?, h]
  · intro st name h
    cases hl : (st.findSymbolsByName name).isEmpty
    · simp only [SymbolCache.findDefinition, hl, Bool.false_eq_true, if_false,
        findDefLoop_eq_find?, h]
    · have : st.findSymbolsByName name = [] := List.isEmpty_iff.mp hl
      simp [SymbolCache.findDefinition, this]

/-- C5 witness: the no-candidate hypothesis holds on the empty cache. -/
theorem C5_lookupDefinition_witness :
    SymbolCache.empty.findSymbolsByName "zzz" = [] ∧
    SymbolCache.empty.findDefinition "zzz" = none :=
  ⟨rfl, C5_lookupDefinition.1 SymbolCache.empty "zzz" rfl⟩

/-- C9: findVariableType returns the detail of the first symbol in the file's
symbol sequence whose kind is variable/constant/parameter/field, whose simple
name equals the query, and whose detail is non-empty, and none when no such
symbol exists; there is no scope awareness — the first textual match wins, as
on a file declaring x : i32 before x : f64. -/
theorem C9_lookupVariableType (st : SymbolCache) (filePath varName : String) :
    st.findVariableType filePath varName =
      (mapGet st.cache filePath).bind (fun result =>
        (result.symbols.find? (fun s =>
          isVarKindSym s && (simpleNameOf s.name == varName && s.detail != ""))).map
          (fun s => s.detail)) ∧
    exStC9.findVariableType "s.mut" "x" = some "i32" := by
  constructor
  · rw [SymbolCache.findVariableType]
    cases mapGet st.cache filePath with
    | none => rfl
    | some r => simp [findVarTypeLoop_eq_find?]
  · decide

/-- C3: ingesting the same analysis result twice in succession for a file
yields a global index (and cache and per-file index) identical to ingesting
it once. -/
theorem C3_ingest_idempotent (st : SymbolCache) (filePath : String) (r : AnalysisResult) :
    ((st.ingest filePath r).ingest filePath r).globalSymbols =
      (st.ingest filePath r).globalSymbols ∧
    ((st.ingest filePath r).ingest filePath r).nameIndex =
      (st.ingest filePath r).nameIndex ∧
    ((st.ingest filePath r).ingest filePath r).cache = (st.ingest filePath r).cache := by
  refine ⟨?_, ?_, ?_⟩ <;> simp [SymbolCache.ingest, mapSet_mapSet]

/-- C7: a failed analysis (the invocation resolves null) leaves the cached
results, the per-file and global symbol indices, and the published
diagnostics exactly as they were. -/
theorem C7_failure_preserves_state (st : SymbolCache) (filePath : String) :
    ((st.analyzeFile filePath none).1).cache = st.cache ∧
    ((st.analyzeFile filePath none).1).nameIndex = st.nameIndex ∧
    ((st.analyzeFile filePath none).1).globalSymbols = st.globalSymbols ∧
    ((st.analyzeFile filePath none).1).diagnostics = st.diagnostics := by
  rw [SymbolCache.analyzeFile, SymbolCache.beginAnalyze]
  cases h : st.analyzing.contains filePath
  · simp [h, SymbolCache.completeAnalyze]
  · simp [h]

/-- C4: at most one analysis in flight per file — a request that arrives
while the same path is already analyzing starts no second invocation and is
answered with the currently-cached result (none when nothing is cached); two
requests for the same file issued before the first completes cause exactly
one external invocation. -/
theorem C4_coalescing (st : SymbolCache) (filePath : String)
    (h : st.analyzing.contains filePath = false) :
    (st.beginAnalyze filePath).2.1 = true ∧
    ((st.beginAnalyze filePath).1.beginAnalyze filePath).2.1 = false ∧
    ((st.beginAnalyze filePath).1.beginAnalyze filePath).2.2 =
      some (mapGet st.cache filePath) ∧
    ((st.beginAnalyze filePath).1.beginAnalyze filePath).1 =
      (st.beginAnalyze filePath).1 ∧
    (if (st.beginAnalyze filePath).2.1 then 1 else 0) +
      (if ((st.beginAnalyze filePath).1.beginAnalyze filePath).2.1 then 1 else 0) = 1 := by
  have hmem : ¬ filePath ∈ st.analyzing := by simpa using h
  simp [SymbolCache.beginAnalyze, hmem, List.mem_cons]

/-- C4 witness: the not-already-analyzing hypothesis holds on the empty cache. -/
theorem C4_coalescing_witness :
    (SymbolCache.empty.beginAnalyze "a.mut").2.1 = true ∧
    ((SymbolCache.empty.beginAnalyze "a.mut").1.beginAnalyze "a.mut").2.1 = false ∧
    ((SymbolCache.empty.beginAnalyze "a.mut").1.beginAnalyze "a.mut").2.2 =
      some (mapGet SymbolCache.empty.cache "a.mut") ∧
    ((SymbolCache.empty.beginAnalyze "a.mut").1.beginAnalyze "a.mut").1 =
      (SymbolCache.empty.beginAnalyze "a.mut").1 ∧
    (if (SymbolCache.empty.beginAnalyze "a.mut").2.1 then 1 else 0) +
      (if ((SymbolCache.empty.beginAnalyze "a.mut").1.beginAnalyze "a.mut").2.1
        then 1 else 0) = 1 :=
  C4_coalescing SymbolCache.empty "a.mut" rfl

/-- C2: ingesting result R2 for file F after R1 leaves F indexed exactly by
R2's symbols — its per-file index is rebuilt from R2 alone, so every R1
symbol not in R2 is gone and everything indexed under F is a symbol of R2 —
while every other file's index entry and the whole shape of the name index
are as if only R2 had ever been ingested; F's cached result becomes R2. -/
theorem C2_replacement (st : SymbolCache) (f : String) (r1 r2 : AnalysisResult) :
    ((st.ingest f r1).ingest f r2).nameIndex =
      mapSet st.nameIndex f (buildIndexMap r2.symbols) ∧
    mapGet ((st.ingest f r1).ingest f r2).nameIndex f =
      some (buildIndexMap r2.symbols) ∧
    (∀ f', f' ≠ f →
      mapGet ((st.ingest f r1).ingest f r2).nameIndex f' = mapGet st.nameIndex f') ∧
    (∀ name s, s ∈ fileContrib (buildIndexMap r2.symbols) name → s ∈ r2.symbols) ∧
    ((st.ingest f r1).ingest f r2).cache = mapSet st.cache f r2 := by
  have hni : ((st.ingest f r1).ingest f r2).nameIndex =
      mapSet st.nameIndex f (buildIndexMap r2.symbols) := by
    simp [SymbolCache.ingest, mapSet_mapSet]
  refine ⟨hni, ?_, ?_, ?_, ?_⟩
  · rw [hni]; exact mapGet_mapSet_self _ _ _
  · intro f' hf'; rw [hni]; exact mapGet_mapSet_ne _ _ _ _ hf'
  · intro name s hs
    unfold fileContrib at hs
    cases hg : mapGet (buildIndexMap r2.symbols) name with
    | none => rw [hg] at hs; simp at hs
    | some v =>
      rw [hg] at hs
      exact mem_buildIndexMap r2.symbols (name, v) (mapGet_mem _ _ _ hg) s (by simpa using hs)
  · simp [SymbolCache.ingest, mapSet_mapSet]

/-- C2 witness: the other-file-unchanged hypothesis at a concrete other file. -/
theorem C2_replacement_witness :
    "b.mut" ≠ "a.mut" ∧
    mapGet ((SymbolCache.empty.ingest "a.mut" exResultC5).ingest
      "a.mut" exResultC9).nameIndex "b.mut" = mapGet SymbolCache.empty.nameIndex "b.mut" :=
  ⟨by decide,
   (C2_replacement SymbolCache.empty "a.mut" exResultC5 exResultC9).2.2.1 "b.mut" (by decide)⟩

/-- C1: after every ingest and every file removal the global symbol index is
exactly the union, in file order, of the current per-file name indices (so
every name maps globally to precisely the symbols the cached files
contribute for it); removing a file deletes its per-file index and leaves
every other file's index entry untouched. Ingest and removal preserve the
key-uniqueness invariant of the per-file indices under which this holds. -/
theorem C1_global_index_union (st : SymbolCache) (filePath : String)
    (r : AnalysisResult) (h : ∀ e ∈ st.nameIndex, NodupKeys e.2) :
    (∀ e ∈ (st.ingest filePath r).nameIndex, NodupKeys e.2) ∧
    (∀ e ∈ (st.clearFile filePath).nameIndex, NodupKeys e.2) ∧
    (∀ name, (st.ingest filePath r).findSymbolsByName name =
      unionContrib (st.ingest filePath r).nameIndex name) ∧
    (∀ name, (st.clearFile filePath).findSymbolsByName name =
      unionContrib (st.clearFile filePath).nameIndex name) ∧
    mapGet (st.clearFile filePath).nameIndex filePath = none ∧
    (∀ f', f' ≠ filePath →
      mapGet (st.clearFile filePath).nameIndex f' = mapGet st.nameIndex f') := by
  have hwfIngest : ∀ e ∈ (st.ingest filePath r).nameIndex, NodupKeys e.2 := by
    intro e he
    simp only [SymbolCache.ingest] at he
    rcases mem_mapSet _ _ _ _ he with h' | h'
    · rw [h']; exact nodupKeys_buildIndexMap r.symbols
    · exact h e h'
  have hwfClear : ∀ e ∈ (st.clearFile filePath).nameIndex, NodupKeys e.2 := by
    intro e he
    simp only [SymbolCache.clearFile, mapDelete] at he
    exact h e (List.mem_of_mem_filter he)
  refine ⟨hwfIngest, hwfClear, ?_, ?_, ?_, ?_⟩
  · intro name
    exact rebuildGlobalIndex_contrib name _ hwfIngest
  · intro name
    exact rebuildGlobalIndex_contrib name _ hwfClear
  · exact mapGet_mapDelete_self st.nameIndex filePath
  · intro f' hf'
    exact mapGet_mapDelete_ne st.nameIndex filePath f' hf'

/-- C1 witness: the key-uniqueness hypothesis holds after ingesting a
concrete result into the empty cache. -/
theorem C1_global_index_union_witness :
    mapGet (((SymbolCache.empty.ingest "a.mut" exResultC5).clearFile
      "a.mut")).nameIndex "a.mut" = none :=
  (C1_global_index_union (SymbolCache.empty.ingest "a.mut" exResultC5) "a.mut"
    exResultC5 (by
      intro e he
      have he' : e = ("a.mut", buildIndexMap exResultC5.symbols) := by
        simpa [SymbolCache.ingest, SymbolCache.empty, mapSet] using he
      rw [he']
      exact nodupKeys_buildIndexMap exResultC5.symbols)).2.2.2.2.1

/-- C6: dotted access `identifier.word` resolves by trying, in order: the
receiver's declared type T from the current file (searching `T.word`), the
identifier itself as a type or module name (searching `identifier.word`),
and finally the bare `word`; the first success wins. Given `p : Point` and a
field symbol `Point.x`, resolving `p.x` yields that field symbol. -/
theorem C6_dotted_resolution :
    (∀ (st : SymbolCache) (fp ident word t : String) (s : BismutSymbol),
      st.findVariableType fp ident = some t →
      st.findDefinition (t ++ "." ++ word) = some s →
      resolveDotted st fp ident word = some s) ∧
    (∀ (st : SymbolCache) (fp ident word : String) (s : BismutSymbol),
      (st.findVariableType fp ident).bind
        (fun t => st.findDefinition (t ++ "." ++ word)) = none →
      st.findDefinition (ident ++ "." ++ word) = some s →
      resolveDotted st fp ident word = some s) ∧
    (∀ (st : SymbolCache) (fp ident word : String),
      (st.findVariableType fp ident).bind
        (fun t => st.findDefinition (t ++ "." ++ word)) = none →
      st.findDefinition (ident ++ "." ++ word) = none →
      resolveDotted st fp ident word = st.findDefinition word) ∧
    resolveDotted exStC6 "f.mut" "p" "x" = some pointXSym := by
  refine ⟨?_, ?_, ?_, by decide⟩
  · intro st fp ident word t s h1 h2
    simp [resolveDotted, h1, h2]
  · intro st fp ident word s h1 h2
    cases hv : st.findVariableType fp ident with
    | none => simp [resolveDotted, hv, h2]
    | some t =>
      rw [hv, Option.some_bind] at h1
      simp [resolveDotted, hv, h1, h2]
  · intro st fp ident word h1 h2
    cases hv : st.findVariableType fp ident with
    | none => simp [resolveDotted, hv, h2]
    | some t =>
      rw [hv, Option.some_bind] at h1
      simp [resolveDotted, hv, h1, h2]

/-- C6 witness: the step-one hypotheses hold at the spec's concrete example. -/
theorem C6_dotted_resolution_witness :
    exStC6.findVariableType "f.mut" "p" = some "Point" ∧
    exStC6.findDefinition ("Point" ++ "." ++ "x") = some pointXSym ∧
    resolveDotted exStC6 "f.mut" "p" "x" = some pointXSym :=
  ⟨by decide, by decide,
   C6_dotted_resolution.1 exStC6 "f.mut" "p" "x" "Point" pointXSym (by decide) (by decide)⟩

/-- C10: in dot-triggered completion, when the receiver's resolved type has
at least one member the returned items are exactly those members minus every
member of kind parameter (so a type whose members are all parameters yields
an empty list, as on type G below); the enum-name fallback is taken only
when the resolved type has no members at all and applies no parameter
filter. -/
theorem C10_dot_completion_parameter_filter :
    (∀ (st : SymbolCache) (filePath varName : String),
      st.findMembers ((st.findVariableType filePath varName).getD varName) ≠ [] →
      provideDotCompletion st filePath varName =
        ((st.findMembers ((st.findVariableType filePath varName).getD varName)).filter
          (fun m => m.kind != "parameter")).map symbolToCompletionItem) ∧
    (∀ (st : SymbolCache) (filePath varName : String),
      st.findMembers ((st.findVariableType filePath varName).getD varName) = [] →
      st.findMembers varName ≠ [] →
      provideDotCompletion st filePath varName =
        (st.findMembers varName).map symbolToCompletionItem) ∧
    (∀ (st : SymbolCache) (filePath varName : String),
      st.findMembers ((st.findVariableType filePath varName).getD varName) = [] →
      st.findMembers varName = [] →
      provideDotCompletion st filePath varName = []) ∧
    provideDotCompletion exStC10 "g.mut" "G" = [] := by
  refine ⟨?_, ?_, ?_, by decide⟩
  · intro st filePath varName hm
    cases hv : st.findVariableType filePath varName with
    | none =>
      rw [hv] at hm
      have hne : (st.findMembers varName).isEmpty = false := by
        simpa [List.isEmpty_iff] using hm
      simp [provideDotCompletion, hv, hne]
    | some t =>
      rw [hv] at hm
      have hne : (st.findMembers t).isEmpty = false := by
        simpa [List.isEmpty_iff] using hm
      simp [provideDotCompletion, hv, hne]
  · intro st filePath varName hm henum
    have hne : (st.findMembers varName).isEmpty = false := by
      simpa [List.isEmpty_iff] using henum
    cases hv : st.findVariableType filePath varName with
    | none =>
      simp only [hv, Option.getD_none] at hm
      rw [hm] at hne
      simp at hne
    | some t =>
      simp only [hv, Option.getD_some] at hm
      simp [provideDotCompletion, hv, hm, hne]
  · intro st filePath varName hm henum
    cases hv : st.findVariableType filePath varName with
    | none =>
      simp only [hv, Option.getD_none] at hm
      simp [provideDotCompletion, hv, hm, henum]
    | some t =>
      simp only [hv, Option.getD_some] at hm
      simp [provideDotCompletion, hv, hm, henum]

/-- C10 witness: the nonempty-members hypothesis at a type with one
parameter member, where the filtered completion list is empty. -/
theorem C10_dot_completion_parameter_filter_witness :
    exStC10.findMembers ((exStC10.findVariableType "g.mut" "G").getD "G") ≠ [] ∧
    provideDotCompletion exStC10 "g.mut" "G" =
      ((exStC10.findMembers ((exStC10.findVariableType "g.mut" "G").getD "G")).filter
        (fun m => m.kind != "parameter")).map symbolToCompletionItem :=
  ⟨by decide,
   C10_dot_completion_parameter_filter.1 exStC10 "g.mut" "G" (by decide)⟩
